import Mathlib

/-!
Verification development for the nx-apphubd daemon
(`src/nx_apphub_daemon/main.py`).  The Python source is shallowly embedded:
file contents are lists of characters, the filesystem state touched by each
function is an explicit record, and every stateful operation becomes a pure
state transformer.  Definitions follow the source line by line; the claims
about the specification are settled as theorems at the end of the file.
-/

set_option autoImplicit false

namespace NxApphubd

/-! Character-list utilities mirroring the Python string primitives used by
the daemon (`str.strip`, `str.split`, `str.startswith`, `in`, `readlines`,
`re.search(r"\d", ...)`). -/

/-- Python whitespace characters (the default set of `str.strip` /
`str.split`) restricted to the ASCII range that can occur here. -/
def isWsChar (c : Char) : Bool :=
  c == ' ' || c == '\t' || c == '\n' || c == '\r' || c == '\x0b' || c == '\x0c'

/-- Drop trailing whitespace, as the right half of Python `str.strip`. -/
def dropTrailingWs (l : List Char) : List Char :=
  (l.reverse.dropWhile isWsChar).reverse

/-- Python `str.strip()` on a list of characters. -/
def pstrip (l : List Char) : List Char :=
  dropTrailingWs (l.dropWhile isWsChar)

/-- Python `a.startswith(b)` / list prefix test, executable. -/
def isPrefL : List Char → List Char → Bool
  | [], _ => true
  | _ :: _, [] => false
  | a :: as, b :: bs => a == b && isPrefL as bs

/-- Python `needle in hay` substring test, executable. -/
def isSubL (needle : List Char) : List Char → Bool
  | [] => needle.isEmpty
  | c :: cs => isPrefL needle (c :: cs) || isSubL needle cs

/-- Python `str.split(sep)` for a one-character separator; always returns a
nonempty list of separator-free pieces. -/
def splitSep (sep : Char) : List Char → List (List Char)
  | [] => [[]]
  | c :: cs =>
    if c = sep then [] :: splitSep sep cs
    else
      match splitSep sep cs with
      | [] => [[c]]
      | h :: t => (c :: h) :: t

/-- Python `sep.join(pieces)` for a one-character separator. -/
def joinSep (sep : Char) : List (List Char) → List Char
  | [] => []
  | [x] => x
  | x :: y :: t => x ++ sep :: joinSep sep (y :: t)

/-- Python `re.search(r"\d", s)`: does the token contain an ASCII digit? -/
def hasDigit (l : List Char) : Bool := l.any Char.isDigit

/-- Split a text into lines the way Python `readlines` does: every line keeps
its terminating newline, and a final unterminated segment is kept as a last
line without one.  `acc` holds the current line read so far, reversed. -/
def splitLinesAux : List Char → List Char → List (List Char)
  | [], acc => if acc.isEmpty then [] else [acc.reverse]
  | c :: cs, acc =>
    if c = '\n' then (acc.reverse ++ ['\n']) :: splitLinesAux cs []
    else splitLinesAux cs (c :: acc)

/-- Python `f.readlines()` of a whole text. -/
def splitLines (l : List Char) : List (List Char) := splitLinesAux l []

/-- The final unterminated segment of a text (everything after the last
newline; empty when the text is empty or newline-terminated). -/
def trailer (l : List Char) : List Char :=
  (l.reverse.takeWhile (fun c => !(c == '\n'))).reverse

/-- The newline-terminated head of a text, complement of `trailer`. -/
def headPart (l : List Char) : List Char :=
  (l.reverse.dropWhile (fun c => !(c == '\n'))).reverse

/-- Remove trailing newline characters (used to state byte-for-byte equality
"excluding incidental trailing-newline normalization"). -/
def rstripNL (l : List Char) : List Char :=
  (l.reverse.dropWhile (fun c => c == '\n')).reverse

/-! The name-derivation helpers of the daemon (`sanitize_name`,
`get_base_app_name`, `main.py` lines 48-78). -/

/-- Line 58: `re.sub(r'[:+~]', '-', name)`. -/
def sanitize_name (s : String) : String :=
  String.mk (s.data.map fun c => if c = ':' ∨ c = '+' ∨ c = '~' then '-' else c)

/-- Line 71: `re.sub(r'-[^-]+$', '', filename_stem)`.  The regex removes the
last hyphen together with everything after it exactly when at least one
non-hyphen character follows the last hyphen; on the token list produced by
splitting at hyphens this is: drop the last token when there are at least two
tokens and the last one is nonempty. -/
def stripArchSegment (l : List Char) : List Char :=
  let parts := splitSep '-' l
  if parts.length ≥ 2 ∧ parts.getLastD [] ≠ [] then joinSep '-' parts.dropLast
  else l

/-- Lines 61-78 of `main.py`: strip the trailing architecture segment, take
the first hyphen token, and join the first two tokens when there are at least
two and the second contains no digit. -/
def get_base_app_name (s : String) : String :=
  let stem := stripArchSegment s.data
  let parts := splitSep '-' stem
  let base := parts.headD []
  if parts.length ≥ 2 ∧ ¬ hasDigit (parts.getD 1 []) then
    String.mk (base ++ '-' :: parts.getD 1 [])
  else
    String.mk base

example : get_base_app_name "firefox-120.0-x86_64" = "firefox" := by decide
example : get_base_app_name "my-app-2.1.0-aarch64" = "my-app" := by decide
example : sanitize_name "c++:tool~1" = "c---tool-1" := by decide

/-! The trust validator (`is_elf_binary` and `is_valid_appbox`,
`main.py` lines 81-224).  The filesystem facts the validator consults are an
explicit environment: whether the artifact exists, its leading bytes, whether
the `nx-apphub-cli` trust-store directory exists, the parsed `app.yml`
documents found under it, and the build-marker file names in `.built`. -/

/-- One `app.yml` document as the validator sees it after `yaml.safe_load`:
whether it parsed to a non-empty mapping with a `buildinfo` key, the declared
`buildinfo.name` (empty when missing), and the declared architecture from
`buildinfo.distrorepo[0].arch` (none when `distrorepo` is absent or empty). -/
structure YamlDoc where
  hasBuildinfo : Bool
  name : String
  arch : Option String
deriving DecidableEq, Repr

/-- The filesystem environment consulted by `is_valid_appbox`. -/
structure ValidEnv where
  fileExists : Bool
  fileBytes : List Nat
  cliDirExists : Bool
  yamls : List YamlDoc
  markers : List String
deriving DecidableEq, Repr

/-- The four ELF magic bytes `b'\x7fELF'`. -/
def elfMagic : List Nat := [127, 69, 76, 70]

/-- Lines 81-96: `is_elf_binary` compares the first four bytes with the ELF
magic (a short read yields fewer than four bytes and never matches). -/
def is_elf_binary (bytes : List Nat) : Bool := bytes.take 4 == elfMagic

/-- Lines 142-145 and 178-179: the architecture alias table, applied in
reverse (`amd64 -> x86_64`, `arm64 -> aarch64`, anything else unchanged). -/
def reverseArchMap (a : String) : String :=
  if a = "amd64" then "x86_64" else if a = "arm64" then "aarch64" else a

/-- Lines 161-189: does one YAML document match the artifact?  It must have
parsed with a `buildinfo`, declare a nonempty name that prefix-matches the
filename stem (followed by a hyphen), and declare an architecture whose
alias-mapped form equals the filename's architecture token. -/
def yamlMatches (stem fileArch : String) (y : YamlDoc) : Bool :=
  y.hasBuildinfo && !(y.name == "") &&
  isPrefL (y.name ++ "-").data stem.data &&
  (match y.arch with
   | some a => reverseArchMap a == fileArch
   | none => false)

/-- Lines 99-224: `is_valid_appbox`, returning the `(is_valid, reason)` pair
with the exact reason strings of the source. -/
def is_valid_appbox (e : ValidEnv) (stem : String) : Bool × String :=
  if ¬ e.fileExists then (false, "File does not exist")
  else if ¬ is_elf_binary e.fileBytes then (false, "Not a valid ELF binary")
  else if ¬ e.cliDirExists then
    (false, "No nx-apphub-cli directory found - AppBox definitions missing")
  else
    let parts := splitSep '-' stem.data
    if parts.length < 3 then (false, "Invalid AppBox filename format")
    else
      let fileArch := String.mk (parts.getLastD [])
      if ¬ e.yamls.any (yamlMatches stem fileArch) then
        (false, "No corresponding YAML definition found - not a valid AppBox")
      else if ¬ e.markers.contains stem then
        (false, "No build marker found - AppBox not built by nx-apphub-cli")
      else (true, "Valid AppBox")

/-! The alias ledger (`update_alias_file`, `main.py` lines 265-309).  The
whole body runs inside the single process-local `file_lock`; the model is the
pure content transformation performed inside that critical section. -/

/-- Line 283: the header line `# Alias for <name>\n`. -/
def aliasHeader (name : String) : List Char :=
  ("# Alias for " ++ name ++ "\n").data

/-- Line 282: the command line `alias <name>='<path>'\n`. -/
def aliasCmdLine (name path : String) : List Char :=
  ("alias " ++ name ++ "='" ++ path ++ "'\n").data

/-- Line 293: `line.strip() == header.strip()`. -/
def isHdrLine (name : String) (l : List Char) : Prop :=
  pstrip l = pstrip (aliasHeader name)

instance (name : String) (l : List Char) : Decidable (isHdrLine name l) := by
  unfold isHdrLine; infer_instance

/-- Line 294: `lines[i+1].strip().startswith("alias <name>=")`. -/
def isCmdLine (name : String) (l : List Char) : Prop :=
  isPrefL ("alias " ++ name ++ "=").data (pstrip l) = true

instance (name : String) (l : List Char) : Decidable (isCmdLine name l) := by
  unfold isCmdLine; infer_instance

/-- The removal scan with the previous, not yet emitted line held in an
accumulator, so the recursion is structural. -/
def scanRemoveAliasAux (name : String) :
    Option (List Char) → List (List Char) → List (List Char)
  | none, [] => []
  | some x, [] => [x]
  | none, y :: rest => scanRemoveAliasAux name (some y) rest
  | some x, y :: rest =>
    if isHdrLine name x ∧ isCmdLine name y then scanRemoveAliasAux name none rest
    else x :: scanRemoveAliasAux name (some y) rest

/-- Lines 285-298: the removal scan.  It walks the lines and drops every
`# Alias for <name>` line that is immediately followed by an
`alias <name>=...` line, keeping everything else. -/
def scanRemoveAlias (name : String) (l : List (List Char)) : List (List Char) :=
  scanRemoveAliasAux name none l

/-- Lines 274-307: `update_alias_file` as a transformation of the alias-file
content (the body of the `file_lock` critical section).  The file is read as
lines, the removal scan runs, and unless `remove` a blank separator (when the
file is nonempty and its last line is not blank) plus the fresh two-line
block are appended; the lines are then written back whole. -/
def update_alias_file (name path : String) (remove : Bool)
    (content : List Char) : List Char :=
  let lines := splitLines content
  let newLines := scanRemoveAlias name lines
  let finalLines :=
    if remove then newLines
    else
      (if ¬ newLines.isEmpty ∧ pstrip (newLines.getLastD []) ≠ [] then
        newLines ++ [['\n']]
      else newLines) ++ [aliasHeader name, aliasCmdLine name path]
  finalLines.flatten

example :
    update_alias_file "htop" "/x/htop-1-a.AppBox" false "# other\n".data
      = ("# other\n\n# Alias for htop\nalias htop='/x/htop-1-a.AppBox'\n").data := by
  decide

example :
    update_alias_file "htop" "/x/a.AppBox" true
      ("# other\n\n# Alias for htop\nalias htop='/x/a.AppBox'\n").data
      = ("# other\n\n").data := by
  decide

/-! The readiness gate (`wait_until_file_ready`, `main.py` lines 312-337).
Time is modelled as the finite sequence of polls that fit inside the timeout;
each poll either observes a size together with the readability of the file or
raises `FileNotFoundError` / `PermissionError`. -/

/-- One poll of the watched file. -/
inductive FileObs where
  | size (n : Nat) (readable : Bool)
  | err
deriving DecidableEq, Repr

/-- The polling loop with `last_size` threaded through (`last_size` starts at
`-1`, i.e. no size observed yet; an exception leaves it unchanged). -/
def waitReadyAux : List FileObs → Option Nat → Bool
  | [], _ => false
  | FileObs.err :: rest, last => waitReadyAux rest last
  | FileObs.size n r :: rest, last =>
    if last = some n ∧ r then true else waitReadyAux rest (some n)

/-- Lines 312-337: `wait_until_file_ready` over the polls that fit inside the
timeout; the empty-trace / exhausted-trace result `false` is the timeout. -/
def wait_until_file_ready (polls : List FileObs) : Bool :=
  waitReadyAux polls none

/-- The non-error observations of a poll trace: (size, readable) pairs. -/
def observedSizes (polls : List FileObs) : List (Nat × Bool) :=
  polls.filterMap fun o =>
    match o with
    | FileObs.size n r => some (n, r)
    | FileObs.err => none

/-- The specification-side readiness condition: somewhere in the sequence of
observed sizes two consecutive observations have the same size and the file
is readable at the second of them. -/
def stableObserved (os : List (Nat × Bool)) : Prop :=
  ∃ pre n r post, os = pre ++ (n, r) :: (n, true) :: post

/-- Executable adjacent-pair form of `stableObserved`. -/
def stablePairs : List (Nat × Bool) → Bool
  | (n, _) :: (m, r) :: rest => (n == m && r) || stablePairs ((m, r) :: rest)
  | _ => false

/-! The extractor retry loop (`main.py` lines 386-414). -/

/-- The possible outcomes of one `subprocess.run([appbox, "--appimage-extract"], ...)`
attempt: success, `OSError` with `errno == ETXTBSY`, any other `OSError`, or
`subprocess.CalledProcessError`. -/
inductive ExtractOutcome where
  | success
  | busy
  | osError
  | calledProcessError
deriving DecidableEq, Repr

/-- Lines 389-409: the retry loop.  `f i` is the outcome of attempt `i`
(0-based); `b` is the remaining attempt budget (5 at the top).  Only the
busy outcome continues the loop; any other failure breaks out. -/
def extractLoop (f : Nat → ExtractOutcome) : Nat → Nat → Bool
  | _, 0 => false
  | i, b + 1 =>
    match f i with
    | ExtractOutcome.success => true
    | ExtractOutcome.busy => extractLoop f (i + 1) b
    | ExtractOutcome.osError => false
    | ExtractOutcome.calledProcessError => false

/-- How many attempts the loop performs before stopping. -/
def extractAttemptCount (f : Nat → ExtractOutcome) : Nat → Nat → Nat
  | _, 0 => 0
  | i, b + 1 =>
    match f i with
    | ExtractOutcome.busy => 1 + extractAttemptCount f (i + 1) b
    | _ => 1

/-! The integration pipeline (`integrate_appbox`, `main.py` lines 340-484),
as a transformer of the world state it reads and writes.  The per-artifact
extraction workspace (`specific_extract_dir`) and the walk of the extracted
tree are summarised by what the walk finds: the first `.desktop` descriptor
(absent, unparseable, lacking a `[Desktop Entry]` section, or a key/value
list) and the extension of the first icon file, if any. -/

/-- The abstract location of the managed icon directory
(`~/.local/share/icons/nx-apphub`); the concrete home prefix is irrelevant
to every claim. -/
def iconsDirStr : String := "/home/user/.local/share/icons/nx-apphub"

/-- What the workspace walk and `configparser` make of the first `.desktop`
file found in the extracted tree. -/
inductive DescriptorSrc where
  | parseError
  | noSection
  | ok (entries : List (String × String))
deriving DecidableEq, Repr

/-- First value for a key in a `[Desktop Entry]` section, with a default
(`parser['Desktop Entry'].get(k, d)`). -/
def lookupEntry (entries : List (String × String)) (k d : String) : String :=
  match entries.find? (fun p => p.1 = k) with
  | some p => p.2
  | none => d

/-- Key assignment in a `[Desktop Entry]` section
(`parser['Desktop Entry'][k] = v`): replace in place, else append. -/
def setEntry (entries : List (String × String)) (k v : String) :
    List (String × String) :=
  if entries.any (fun p => p.1 = k) then
    entries.map (fun p => if p.1 = k then (k, v) else p)
  else entries ++ [(k, v)]

/-- ASCII `str.lower()`, enough for the `NoDisplay` comparison. -/
def toLowerAscii (s : String) : String :=
  String.mk (s.data.map fun c =>
    if 'A' ≤ c ∧ c ≤ 'Z' then Char.ofNat (c.toNat + 32) else c)

/-- Writing a file into a directory listing: replace the file with that name
if present, else append it. -/
def setFile (dir : List (String × List (String × String))) (n : String)
    (v : List (String × String)) : List (String × List (String × String)) :=
  if dir.any (fun p => p.1 = n) then
    dir.map (fun p => if p.1 = n then (n, v) else p)
  else dir ++ [(n, v)]

/-- Add an icon file name to the managed icon directory (`shutil.copy`
overwrites, so a duplicate name is replaced rather than doubled). -/
def addIcon (dir : List String) (n : String) : List String :=
  if dir.contains n then dir else dir ++ [n]

/-- The world state read and written by `integrate_appbox`: the poll trace
the readiness gate will see, the validator's environment, the artifact's
filename stem and absolute path string, its execute permission, the
`~/.local/share/applications` directory (file name with its
`[Desktop Entry]` key/value list), the managed icon directory (file names),
the alias-file content, the outcome of each extraction attempt, and what the
workspace walk finds after a successful extraction. -/
structure Env where
  obsTrace : List FileObs
  vEnv : ValidEnv
  stem : String
  pathStr : String
  executable : Bool
  appsDir : List (String × List (String × String))
  iconsDir : List String
  aliasContent : List Char
  extractOutcome : Nat → ExtractOutcome
  foundDesktop : Option DescriptorSrc
  foundIconSuffix : Option String

/-- Observable effects of one `integrate_appbox` run. -/
structure Effects where
  readyOk : Bool
  validOk : Bool
  chmodApplied : Bool
  gateSkipped : Bool
  extractionAttempted : Bool
  extractionAttempts : Nat
  extractionSucceeded : Bool
  workspaceCreated : Bool
  workspaceRemoved : Bool
  iconCopied : Bool
  menuWritten : Bool
  aliasUpdated : Bool
deriving DecidableEq, Repr

/-- The all-false effect record (nothing happened). -/
def noEffects : Effects :=
  ⟨false, false, false, false, false, 0, false, false, false, false, false, false⟩

/-- Lines 340-484: `integrate_appbox` as a state transformer.  The order of
operations follows the source: readiness gate, trust validation, `chmod`
of the artifact when it is not executable, the already-integrated check on
`<sanitized>.desktop`, creation of the per-artifact workspace, the bounded
extraction retry loop, the walk for the first `.desktop` file, the walk for
the first icon and its copy, descriptor parsing, the `[Desktop Entry]`
check, the `Exec`/`TryExec`/`Icon` rewrite, the write of the menu entry,
and the alias update for `NoDisplay=true` applications.  The workspace is
removed with `shutil.rmtree` on every path past its creation. -/
def integrate_appbox (env : Env) : Env × Effects :=
  if wait_until_file_ready env.obsTrace = false then (env, noEffects)
  else if (is_valid_appbox env.vEnv env.stem).1 = false then
    (env, { noEffects with readyOk := true })
  else
    let chmodNeeded := env.executable = false
    let env1 : Env := { env with executable := true }
    let sanitized := sanitize_name (get_base_app_name env.stem)
    let desktopName := sanitized ++ ".desktop"
    if env1.appsDir.any (fun p => p.1 = desktopName) then
      (env1,
        { noEffects with
          readyOk := true, validOk := true,
          chmodApplied := chmodNeeded, gateSkipped := true })
    else
      let base : Effects :=
        { noEffects with
          readyOk := true, validOk := true,
          chmodApplied := chmodNeeded, extractionAttempted := true,
          extractionAttempts := extractAttemptCount env.extractOutcome 0 5,
          workspaceCreated := true }
      if extractLoop env.extractOutcome 0 5 = false then
        (env1, { base with workspaceRemoved := true })
      else
        match env.foundDesktop with
        | none =>
          (env1, { base with extractionSucceeded := true, workspaceRemoved := true })
        | some d =>
          let iconDest : Option String :=
            match env.foundIconSuffix with
            | some suf => some (sanitized ++ suf)
            | none => none
          let env2 : Env :=
            match iconDest with
            | some ic => { env1 with iconsDir := addIcon env1.iconsDir ic }
            | none => env1
          match d with
          | DescriptorSrc.parseError =>
            (env2,
              { base with
                extractionSucceeded := true,
                iconCopied := iconDest.isSome, workspaceRemoved := true })
          | DescriptorSrc.noSection =>
            (env2,
              { base with
                extractionSucceeded := true,
                iconCopied := iconDest.isSome, workspaceRemoved := true })
          | DescriptorSrc.ok entries =>
            let entries1 := setEntry entries "Exec" env.pathStr
            let entries2 := setEntry entries1 "TryExec" env.pathStr
            let entries3 :=
              match iconDest with
              | some ic => setEntry entries2 "Icon" (iconsDirStr ++ "/" ++ ic)
              | none => entries2
            let isCli := toLowerAscii (lookupEntry entries3 "NoDisplay" "false") = "true"
            let env3 : Env := { env2 with appsDir := setFile env2.appsDir desktopName entries3 }
            let env4 : Env :=
              if isCli then
                { env3 with
                  aliasContent :=
                    update_alias_file sanitized env.pathStr false env3.aliasContent }
              else env3
            (env4,
              { base with
                extractionSucceeded := true,
                iconCopied := iconDest.isSome, workspaceRemoved := true,
                menuWritten := true, aliasUpdated := isCli })

/-! Removal of an integration (`remove_integration`, `main.py` lines
487-527) and the startup reconciliation sweep (`clean_stale_integrations`,
lines 558-613).  Installed menu entries are modelled by the fields these
functions read: file name, presence of a `[Desktop Entry]` section, and the
`Exec` and `Icon` values. -/

/-- One installed `.desktop` file as the removal code reads it. -/
structure MenuFile where
  fname : String
  hasSection : Bool
  execVal : String
  iconVal : String
deriving DecidableEq, Repr

/-- The installed state touched by removal: the menu-entry directory, the
icon files present in the managed icon directory (absolute path strings),
and the alias-file content. -/
structure DeskState where
  files : List MenuFile
  iconFiles : List String
  aliasContent : List Char
deriving DecidableEq, Repr

/-- Line 516: `icons_dir in icon_path.parents` for string-modelled absolute
paths: the icon path lies strictly under the managed icon directory. -/
def underIconsDir (p : String) : Bool :=
  isPrefL (iconsDirStr ++ "/").data p.data

/-- Lines 499-511: the per-file removal condition of `remove_integration`:
the file name contains the sanitized base name (substring), the descriptor
has a `[Desktop Entry]` section, and the `Exec` value contains the
artifact's path (substring). -/
def matchedEntry (pathStr name : String) (f : MenuFile) : Bool :=
  isSubL name.data f.fname.data && f.hasSection &&
  isSubL pathStr.data f.execVal.data

/-- Lines 487-527: `remove_integration`.  Every matched entry is unlinked;
its referenced icon is unlinked when it exists and lies under the managed
icon directory; the alias block is removed and the removal notification is
fired only when at least one entry was removed (the returned Bool). -/
def remove_integration (pathStr stem : String) (st : DeskState) :
    DeskState × Bool :=
  let name := sanitize_name (get_base_app_name stem)
  let removedAny := st.files.any (matchedEntry pathStr name)
  let files2 := st.files.filter (fun f => !(matchedEntry pathStr name f))
  let icons2 := st.iconFiles.filter (fun ic =>
    !(st.files.any (fun f =>
      matchedEntry pathStr name f && !(f.iconVal == "") &&
      f.iconVal == ic && underIconsDir ic)))
  let alias2 :=
    if removedAny then update_alias_file name pathStr true st.aliasContent
    else st.aliasContent
  (⟨files2, icons2, alias2⟩, removedAny)

/-- Python `s.strip("'\"")`: drop leading and trailing quote characters. -/
def stripQuotes (l : List Char) : List Char :=
  let isQ : Char → Bool := fun c => c == '\'' || c == '"'
  ((l.dropWhile isQ).reverse.dropWhile isQ).reverse

/-- Python `s.split()[0]` guarded against the `IndexError` that the source
swallows: the first whitespace-separated token, if any. -/
def firstWsToken (l : List Char) : Option (List Char) :=
  let rest := l.dropWhile isWsChar
  let t := rest.takeWhile (fun c => !(isWsChar c))
  if t.isEmpty then none else some t

/-- Lines 567-581: is a menu entry stale?  It must have a `[Desktop Entry]`
section, its quote-stripped `Exec` value must contain the watched directory,
and the quote-stripped first token of that value must not be among the
currently present artifacts.  A missing first token raises `IndexError`,
which the bare `except` swallows, keeping the file. -/
def staleFile (watchDir : String) (existing : List String) (f : MenuFile) :
    Bool :=
  f.hasSection &&
  (let ec := stripQuotes f.execVal.data
   isSubL watchDir.data ec &&
   (match firstWsToken ec with
    | none => false
    | some t => !(existing.contains (String.mk (stripQuotes t)))))

/-- Line 600: `re.search(r"='([^']+)'", cmd_line)`, returning the first
quoted capture after an equals sign (leftmost match; on a failed match the
scan resumes at the next character, as the regex engine does). -/
def extractQuotedAfterEq : List Char → Option (List Char)
  | [] => none
  | '=' :: rest =>
    (match rest with
     | '\'' :: rest2 =>
       let t := rest2.takeWhile (fun c => !(c == '\''))
       if t.length > 0 ∧ (rest2.drop t.length).head? = some '\'' then some t
       else extractQuotedAfterEq rest
     | _ => extractQuotedAfterEq rest)
  | _ :: rest => extractQuotedAfterEq rest

/-- Does the stale-alias scan drop the pair `(x, y)`?  Line 597 checks the
stripped header prefix, line 598 that the next line contains `alias `, and
lines 600-603 extract the quoted path and test it against the watched
directory and the present artifacts. -/
def staleAliasPair (watchDir : String) (existing : List String)
    (x y : List Char) : Bool :=
  isPrefL ("# Alias for").data (pstrip x) &&
  isSubL ("alias ").data y &&
  (match extractQuotedAfterEq y with
   | some p => isSubL watchDir.data p && !(existing.contains (String.mk p))
   | none => false)

/-- The stale-alias scan with the pending previous line in an accumulator so
the recursion is structural. -/
def staleAliasScanAux (watchDir : String) (existing : List String) :
    Option (List Char) → List (List Char) → List (List Char)
  | none, [] => []
  | some x, [] => [x]
  | none, y :: rest => staleAliasScanAux watchDir existing (some y) rest
  | some x, y :: rest =>
    if staleAliasPair watchDir existing x y then
      staleAliasScanAux watchDir existing none rest
    else x :: staleAliasScanAux watchDir existing (some y) rest

/-- Lines 588-609: the stale-alias scan of the sweep: drop a
`# Alias for ...` line together with its following line when that next line
contains `alias `, carries a quoted path after an equals sign, and that path
lies in the watched directory but is not a present artifact. -/
def staleAliasScan (watchDir : String) (existing : List String)
    (l : List (List Char)) : List (List Char) :=
  staleAliasScanAux watchDir existing none l

/-- Lines 558-613: `clean_stale_integrations`.  The desktop pass unlinks the
stale menu entries; the alias pass (inside the lock) rewrites the alias file
without the stale blocks.  Nothing in the function touches the icon
directory. -/
def clean_stale_integrations (watchDir : String) (existing : List String)
    (st : DeskState) : DeskState :=
  let files2 := st.files.filter (fun f => !(staleFile watchDir existing f))
  let alias2 :=
    (staleAliasScan watchDir existing (splitLines st.aliasContent)).flatten
  ⟨files2, st.iconFiles, alias2⟩

/-! Lemmas about `splitSep` and `joinSep`, used for the base-name claims. -/

theorem splitSep_ne_nil (sep : Char) (l : List Char) : splitSep sep l ≠ [] := by
  induction l with
  | nil => simp [splitSep]
  | cons c cs ih =>
    simp only [splitSep]
    split
    · simp
    · cases h : splitSep sep cs with
      | nil => simp
      | cons a t => simp

theorem splitSep_no_sep (sep : Char) (l : List Char) (h : sep ∉ l) :
    splitSep sep l = [l] := by
  induction l with
  | nil => rfl
  | cons c cs ih =>
    simp only [List.mem_cons, not_or] at h
    simp only [splitSep]
    rw [if_neg (fun hc => h.1 hc.symm), ih h.2]

theorem splitSep_sep_append (sep : Char) (t r : List Char) (h : sep ∉ t) :
    splitSep sep (t ++ sep :: r) = t :: splitSep sep r := by
  induction t with
  | nil => simp [splitSep]
  | cons c cs ih =>
    simp only [List.mem_cons, not_or] at h
    simp only [List.cons_append, splitSep, List.append_eq]
    rw [if_neg (fun hc => h.1 hc.symm), ih h.2]

theorem mem_splitSep_not_mem (sep : Char) (l : List Char) :
    ∀ x ∈ splitSep sep l, sep ∉ x := by
  induction l with
  | nil =>
    intro x hx
    simp [splitSep] at hx
    simp [hx]
  | cons c cs ih =>
    intro x hx
    simp only [splitSep] at hx
    by_cases hc : c = sep
    · rw [if_pos hc] at hx
      rcases List.mem_cons.mp hx with h | h
      · simp [h]
      · exact ih x h
    · rw [if_neg hc] at hx
      cases heq : splitSep sep cs with
      | nil => exact absurd heq (splitSep_ne_nil sep cs)
      | cons a u =>
        rw [heq] at hx
        rcases List.mem_cons.mp hx with h | h
        · subst h
          intro hmem
          rcases List.mem_cons.mp hmem with h | h
          · exact hc h.symm
          · exact ih a (heq ▸ List.mem_cons_self a u) h
        · exact ih x (heq ▸ List.mem_cons_of_mem a h)

theorem splitSep_joinSep (sep : Char) (L : List (List Char)) (hne : L ≠ [])
    (h : ∀ x ∈ L, sep ∉ x) : splitSep sep (joinSep sep L) = L := by
  induction L with
  | nil => exact absurd rfl hne
  | cons x L' ih =>
    cases L' with
    | nil =>
      simp only [joinSep]
      exact splitSep_no_sep sep x (h x (List.mem_cons_self x []))
    | cons y L'' =>
      simp only [joinSep]
      rw [splitSep_sep_append sep x _ (h x (List.mem_cons_self x _))]
      rw [ih (by simp) (fun z hz => h z (List.mem_cons_of_mem x hz))]

/-- Characterization of `get_base_app_name` on a stem with at least three
hyphen-separated tokens whose last token is nonempty (so the architecture
segment is actually stripped): the result is the first token, or the first
two joined when the second has no digit. -/
theorem get_base_app_name_eq (s : String) (a b c : List Char)
    (rest : List (List Char))
    (hp : splitSep '-' s.data = a :: b :: c :: rest)
    (hlast : (splitSep '-' s.data).getLastD [] ≠ []) :
    get_base_app_name s =
      if hasDigit b then String.mk a else String.mk (a ++ '-' :: b) := by
  have hfree : ∀ x ∈ splitSep '-' s.data, '-' ∉ x := mem_splitSep_not_mem '-' s.data
  have hsub : (c :: rest).dropLast ⊆ c :: rest := by
    rw [List.dropLast_eq_take]
    exact List.take_subset _ _
  have hfree2 : ∀ x ∈ a :: b :: (c :: rest).dropLast, '-' ∉ x := by
    intro x hx
    have hx' : x ∈ a :: b :: c :: rest := by
      rcases List.mem_cons.mp hx with h | hx2
      · rw [h]
        exact List.mem_cons_self _ _
      rcases List.mem_cons.mp hx2 with h | hx3
      · rw [h]
        simp
      · exact List.mem_cons_of_mem _ (List.mem_cons_of_mem _ (hsub hx3))
    exact hfree x (by rw [hp]; exact hx')
  have hdl : (a :: b :: c :: rest).dropLast = a :: b :: (c :: rest).dropLast := rfl
  have hstrip : stripArchSegment s.data
      = joinSep '-' (a :: b :: (c :: rest).dropLast) := by
    simp only [stripArchSegment]
    rw [hp] at hlast ⊢
    rw [if_pos ⟨by simp [List.length_cons], hlast⟩, hdl]
  have hsplit2 : splitSep '-' (joinSep '-' (a :: b :: (c :: rest).dropLast))
      = a :: b :: (c :: rest).dropLast :=
    splitSep_joinSep '-' _ (by simp) hfree2
  simp only [get_base_app_name]
  rw [hstrip, hsplit2]
  simp only [List.length_cons, List.getD_cons_succ, List.getD_cons_zero,
    List.headD_cons]
  by_cases hd : hasDigit b
  · rw [if_neg (by simp [hd]), if_pos hd]
  · rw [if_pos ⟨by omega, by simp [hd]⟩, if_neg hd]

/-! Lemmas about the readiness gate. -/

theorem stableObserved_nil : ¬ stableObserved [] := by
  rintro ⟨pre, n, r, post, h⟩
  exact absurd h (by simp)

theorem observedSizes_nil : observedSizes [] = [] := rfl

theorem observedSizes_cons_err (tr : List FileObs) :
    observedSizes (FileObs.err :: tr) = observedSizes tr := rfl

theorem observedSizes_cons_size (n : Nat) (r : Bool) (tr : List FileObs) :
    observedSizes (FileObs.size n r :: tr) = (n, r) :: observedSizes tr := rfl

theorem stableObserved_cons (o : Nat × Bool) (os : List (Nat × Bool)) :
    stableObserved (o :: os) ↔
      (∃ post, os = (o.1, true) :: post) ∨ stableObserved os := by
  constructor
  · rintro ⟨pre, n, r, post, h⟩
    cases pre with
    | nil =>
      simp only [List.nil_append, List.cons.injEq] at h
      left
      exact ⟨post, by rw [h.2, h.1]⟩
    | cons q pre' =>
      right
      simp only [List.cons_append, List.cons.injEq] at h
      exact ⟨pre', n, r, post, h.2⟩
  · rintro (⟨post, h⟩ | ⟨pre, n, r, post, h⟩)
    · exact ⟨[], o.1, o.2, post, by simp [h]⟩
    · exact ⟨o :: pre, n, r, post, by simp [h]⟩

theorem waitReadyAux_iff (tr : List FileObs) :
    ∀ last : Option Nat,
      waitReadyAux tr last = true ↔
        (stableObserved (observedSizes tr) ∨
          ∃ n post, last = some n ∧ observedSizes tr = (n, true) :: post) := by
  induction tr with
  | nil =>
    intro last
    simp only [waitReadyAux, observedSizes_nil]
    constructor
    · intro h
      exact absurd h (by simp)
    · rintro (h | ⟨n, post, _, h⟩)
      · exact absurd h stableObserved_nil
      · exact absurd h (by simp)
  | cons o tr ih =>
    intro last
    cases o with
    | err =>
      simp only [waitReadyAux, observedSizes_cons_err]
      exact ih last
    | size n r =>
      simp only [waitReadyAux, observedSizes_cons_size]
      by_cases h : last = some n ∧ r = true
      · rw [if_pos ⟨h.1, h.2⟩]
        constructor
        · intro _
          right
          exact ⟨n, observedSizes tr, h.1, by rw [h.2]⟩
        · intro _
          rfl
      · rw [if_neg (fun hc => h ⟨hc.1, hc.2⟩)]
        rw [ih (some n)]
        constructor
        · rintro (hs | ⟨m, post, hm, hos⟩)
          · left
            rw [stableObserved_cons]
            right
            exact hs
          · left
            rw [stableObserved_cons]
            left
            have hm' : m = n := by injection hm with h0; exact h0.symm
            exact ⟨post, by rw [hos, hm']⟩
        · rintro (hs | ⟨m, post, hm, hos⟩)
          · rcases (stableObserved_cons _ _).mp hs with ⟨post, hpost⟩ | hs'
            · right
              exact ⟨n, post, rfl, hpost⟩
            · left
              exact hs'
          · exfalso
            have hpair : (n, r) = (m, true) ∧ observedSizes tr = post := by
              have := hos
              simp only [List.cons.injEq] at this
              exact this
            have hr : r = true := by
              have := hpair.1
              simp only [Prod.mk.injEq] at this
              exact this.2
            have hnm : n = m := by
              have := hpair.1
              simp only [Prod.mk.injEq] at this
              exact this.1
            exact h ⟨by rw [hm, hnm], hr⟩

theorem stablePairs_iff (os : List (Nat × Bool)) :
    stablePairs os = true ↔ stableObserved os := by
  induction os with
  | nil =>
    constructor
    · intro h
      cases h
    · intro h
      exact absurd h stableObserved_nil
  | cons o os ih =>
    cases os with
    | nil =>
      obtain ⟨n, x⟩ := o
      constructor
      · intro h
        cases h
      · intro h
        rcases (stableObserved_cons _ _).mp h with ⟨post, hp⟩ | h2
        · cases hp
        · exact absurd h2 stableObserved_nil
    | cons o2 os2 =>
      obtain ⟨n, x⟩ := o
      obtain ⟨m, r⟩ := o2
      simp only [stablePairs, Bool.or_eq_true, Bool.and_eq_true, beq_iff_eq]
      rw [ih, stableObserved_cons (n, x) ((m, r) :: os2)]
      constructor
      · rintro (⟨hnm, hr⟩ | h2)
        · left
          exact ⟨os2, by rw [hnm, hr]⟩
        · right
          exact h2
      · rintro (⟨post, hp⟩ | h2)
        · left
          simp only [List.cons.injEq, Prod.mk.injEq] at hp
          exact ⟨hp.1.1.symm, hp.1.2⟩
        · right
          exact h2

/-! Lemmas about `splitLines`, `pstrip` and the alias-line scan, used for
the alias-ledger claims. -/

theorem splitLinesAux_flatten (l : List Char) :
    ∀ acc, (splitLinesAux l acc).flatten = acc.reverse ++ l := by
  induction l with
  | nil =>
    intro acc
    simp only [splitLinesAux]
    split
    · rename_i h
      rw [List.isEmpty_iff] at h
      simp [h]
    · simp
  | cons c cs ih =>
    intro acc
    simp only [splitLinesAux]
    by_cases hc : c = '\n'
    · rw [if_pos hc]
      simp only [List.flatten_cons, ih []]
      simp [hc]
    · rw [if_neg hc, ih (c :: acc)]
      simp

theorem splitLines_flatten (l : List Char) : (splitLines l).flatten = l := by
  simpa using splitLinesAux_flatten l []

theorem splitLines_ne_nil_of_ne_nil (l : List Char) (h : l ≠ []) :
    splitLines l ≠ [] := by
  intro hcon
  apply h
  rw [← splitLines_flatten l, hcon]
  rfl

theorem splitLinesAux_term_append (q : List Char) :
    ∀ acc b, splitLinesAux ((q ++ ['\n']) ++ b) acc
      = splitLinesAux (q ++ ['\n']) acc ++ splitLines b := by
  induction q with
  | nil =>
    intro acc b
    simp [splitLinesAux, splitLines]
  | cons c cs ih =>
    intro acc b
    simp only [List.cons_append, splitLinesAux, List.append_eq]
    by_cases hc : c = '\n'
    · rw [if_pos hc, if_pos hc, ih [] b]
      simp
    · rw [if_neg hc, if_neg hc]
      exact ih (c :: acc) b

theorem splitLines_term_append (q b : List Char) :
    splitLines ((q ++ ['\n']) ++ b) = splitLines (q ++ ['\n']) ++ splitLines b :=
  splitLinesAux_term_append q [] b

theorem splitLinesAux_no_nl_append (t : List Char) :
    ∀ acc b, '\n' ∉ t →
      splitLinesAux (t ++ '\n' :: b) acc
        = (acc.reverse ++ t ++ ['\n']) :: splitLines b := by
  induction t with
  | nil =>
    intro acc b _
    simp [splitLinesAux, splitLines]
  | cons c cs ih =>
    intro acc b h
    simp only [List.mem_cons, not_or] at h
    simp only [List.cons_append, splitLinesAux, List.append_eq]
    rw [if_neg (fun hc => h.1 hc.symm), ih (c :: acc) b h.2]
    simp

theorem splitLines_line (t b : List Char) (h : '\n' ∉ t) :
    splitLines (t ++ '\n' :: b) = (t ++ ['\n']) :: splitLines b := by
  simpa using splitLinesAux_no_nl_append t [] b h

theorem splitLinesAux_no_nl (t : List Char) :
    ∀ acc, '\n' ∉ t → acc.reverse ++ t ≠ [] →
      splitLinesAux t acc = [acc.reverse ++ t] := by
  induction t with
  | nil =>
    intro acc _ hne
    simp only [splitLinesAux]
    rw [if_neg]
    · simp
    · rw [List.isEmpty_iff]
      intro h0
      exact hne (by simp [h0])
  | cons c cs ih =>
    intro acc h hne
    simp only [List.mem_cons, not_or] at h
    simp only [splitLinesAux]
    rw [if_neg (fun hc => h.1 hc.symm), ih (c :: acc) h.2 (by simp)]
    simp

theorem splitLines_no_nl (t : List Char) (h : '\n' ∉ t) (hne : t ≠ []) :
    splitLines t = [t] := by
  simpa using splitLinesAux_no_nl t [] h (by simpa using hne)

theorem dropWhile_head_false {α : Type} (p : α → Bool) :
    ∀ (l : List α) (c : α) (rest : List α),
      l.dropWhile p = c :: rest → p c = false := by
  intro l
  induction l with
  | nil =>
    intro c rest h
    cases h
  | cons x xs ih =>
    intro c rest h
    by_cases hx : p x
    · rw [List.dropWhile_cons_of_pos hx] at h
      exact ih c rest h
    · rw [List.dropWhile_cons_of_neg hx] at h
      cases h
      simpa using hx

theorem dropWhile_append_of_ne_nil {α : Type} (p : α → Bool) (a b : List α)
    (h : a.dropWhile p ≠ []) : (a ++ b).dropWhile p = a.dropWhile p ++ b := by
  induction a with
  | nil => exact absurd rfl h
  | cons x xs ih =>
    by_cases hx : p x
    · rw [List.dropWhile_cons_of_pos hx] at h
      simp only [List.cons_append]
      rw [List.dropWhile_cons_of_pos hx, List.dropWhile_cons_of_pos hx, ih h]
    · simp only [List.cons_append]
      rw [List.dropWhile_cons_of_neg hx, List.dropWhile_cons_of_neg hx]
      rfl

theorem dropWhile_append_of_nil {α : Type} (p : α → Bool) (a b : List α)
    (h : a.dropWhile p = []) : (a ++ b).dropWhile p = b.dropWhile p := by
  induction a with
  | nil => simp
  | cons x xs ih =>
    by_cases hx : p x
    · rw [List.dropWhile_cons_of_pos hx] at h
      simp only [List.cons_append]
      rw [List.dropWhile_cons_of_pos hx]
      exact ih h
    · rw [List.dropWhile_cons_of_neg hx] at h
      cases h

theorem dropTrailingWs_append_ws (l : List Char) (c : Char)
    (hc : isWsChar c = true) : dropTrailingWs (l ++ [c]) = dropTrailingWs l := by
  simp only [dropTrailingWs, List.reverse_append, List.reverse_cons,
    List.reverse_nil, List.nil_append, List.cons_append]
  rw [List.dropWhile_cons_of_pos hc]

theorem dropTrailingWs_append_not_ws (l : List Char) (c : Char)
    (hc : isWsChar c = false) : dropTrailingWs (l ++ [c]) = l ++ [c] := by
  simp only [dropTrailingWs, List.reverse_append, List.reverse_cons,
    List.reverse_nil, List.nil_append, List.cons_append]
  rw [List.dropWhile_cons_of_neg (by simp [hc])]
  simp

theorem dropTrailingWs_cons_not_ws (x : Char) (xs : List Char)
    (hx : isWsChar x = false) :
    dropTrailingWs (x :: xs) = x :: dropTrailingWs xs := by
  simp only [dropTrailingWs, List.reverse_cons]
  by_cases h : xs.reverse.dropWhile isWsChar = []
  · rw [dropWhile_append_of_nil _ _ _ h, h]
    rw [List.dropWhile_cons_of_neg (by simp [hx])]
    simp
  · rw [dropWhile_append_of_ne_nil _ _ _ h]
    simp

theorem pstrip_append_ws (l : List Char) (c : Char) (hc : isWsChar c = true) :
    pstrip (l ++ [c]) = pstrip l := by
  simp only [pstrip]
  by_cases h : l.dropWhile isWsChar = []
  · rw [dropWhile_append_of_nil _ _ _ h, h]
    rw [List.dropWhile_cons_of_pos hc]
    rfl
  · rw [dropWhile_append_of_ne_nil _ _ _ h]
    exact dropTrailingWs_append_ws _ _ hc

theorem pstrip_cons_not_ws (x : Char) (xs : List Char)
    (hx : isWsChar x = false) : pstrip (x :: xs) = x :: dropTrailingWs xs := by
  simp only [pstrip]
  rw [List.dropWhile_cons_of_neg (by simp [hx])]
  exact dropTrailingWs_cons_not_ws x xs hx

theorem pstrip_sandwich (x : Char) (l : List Char) (c : Char)
    (hx : isWsChar x = false) (hc : isWsChar c = false) :
    pstrip (x :: (l ++ [c])) = x :: (l ++ [c]) := by
  rw [pstrip_cons_not_ws x _ hx, dropTrailingWs_append_not_ws l c hc]

theorem headPart_append_trailer (l : List Char) : headPart l ++ trailer l = l := by
  simp only [headPart, trailer]
  rw [← List.reverse_append, List.takeWhile_append_dropWhile, List.reverse_reverse]

theorem trailer_no_nl (l : List Char) : '\n' ∉ trailer l := by
  intro h
  simp only [trailer, List.mem_reverse] at h
  have := List.mem_takeWhile_imp h
  simp at this

theorem headPart_form (l : List Char) :
    headPart l = [] ∨ ∃ q, headPart l = q ++ ['\n'] := by
  simp only [headPart]
  cases h : l.reverse.dropWhile (fun c => !(c == '\n')) with
  | nil =>
    left
    rfl
  | cons c rest =>
    right
    have hc := dropWhile_head_false _ _ _ _ h
    have hc' : c = '\n' := by simpa using hc
    exact ⟨rest.reverse, by rw [List.reverse_cons, hc']⟩

theorem rstripNL_append_nl (l : List Char) :
    rstripNL (l ++ ['\n']) = rstripNL l := by
  simp only [rstripNL, List.reverse_append, List.reverse_cons, List.reverse_nil,
    List.nil_append, List.cons_append]
  rw [List.dropWhile_cons_of_pos (by simp)]

theorem isPrefL_self_append (a b : List Char) : isPrefL a (a ++ b) = true := by
  induction a with
  | nil => rfl
  | cons x xs ih => simp [isPrefL, ih]

theorem aliasHeader_eq (name : String) :
    aliasHeader name = ("# Alias for " ++ name).data ++ ['\n'] := by
  simp [aliasHeader, String.data_append]

theorem aliasCmdLine_eq (name path : String) :
    aliasCmdLine name path
      = ("alias " ++ name ++ "='" ++ path ++ "'").data ++ ['\n'] := by
  simp [aliasCmdLine, String.data_append]

theorem cmdPrefix_data (name : String) :
    ("alias " ++ name ++ "=").data
      = 'a' :: (['l', 'i', 'a', 's', ' '] ++ name.data ++ ['=']) := by
  simp [String.data_append]

theorem pstrip_aliasCmdLine (name path : String) :
    pstrip (aliasCmdLine name path)
      = ("alias " ++ name ++ "='" ++ path ++ "'").data := by
  rw [aliasCmdLine_eq, pstrip_append_ws _ _ (by decide)]
  have hb : ("alias " ++ name ++ "='" ++ path ++ "'").data
      = 'a' :: ((['l', 'i', 'a', 's', ' '] ++ name.data ++ ['=', '\'']
          ++ path.data) ++ ['\'']) := by
    simp [String.data_append]
  rw [hb, pstrip_sandwich _ _ _ (by decide) (by decide)]

theorem isCmdLine_aliasCmdLine (name path : String) :
    isCmdLine name (aliasCmdLine name path) := by
  unfold isCmdLine
  rw [pstrip_aliasCmdLine]
  have hb : ("alias " ++ name ++ "='" ++ path ++ "'").data
      = ("alias " ++ name ++ "=").data ++ ('\'' :: path.data ++ ['\'']) := by
    simp [String.data_append]
  rw [hb]
  exact isPrefL_self_append _ _

theorem isHdrLine_aliasHeader (name : String) :
    isHdrLine name (aliasHeader name) := rfl

theorem pstrip_aliasHeader_head (name : String) :
    ∃ z, pstrip (aliasHeader name) = '#' :: z := by
  rw [aliasHeader_eq, pstrip_append_ws _ _ (by decide)]
  have hb : ("# Alias for " ++ name).data
      = '#' :: ([' ', 'A', 'l', 'i', 'a', 's', ' ', 'f', 'o', 'r', ' ']
          ++ name.data) := by
    simp [String.data_append]
  rw [hb, pstrip_cons_not_ws _ _ (by decide)]
  exact ⟨_, rfl⟩

theorem not_isCmdLine_aliasHeader (name name2 : String) :
    ¬ isCmdLine name (aliasHeader name2) := by
  unfold isCmdLine
  obtain ⟨z, hz⟩ := pstrip_aliasHeader_head name2
  rw [hz, cmdPrefix_data]
  simp [isPrefL]

theorem not_isHdrLine_nl (name : String) : ¬ isHdrLine name ['\n'] := by
  unfold isHdrLine
  obtain ⟨z, hz⟩ := pstrip_aliasHeader_head name
  rw [hz, show pstrip ['\n'] = ([] : List Char) from by decide]
  intro h
  cases h

theorem not_isCmdLine_nl (name : String) : ¬ isCmdLine name ['\n'] := by
  unfold isCmdLine
  rw [show pstrip ['\n'] = ([] : List Char) from by decide, cmdPrefix_data]
  simp [isPrefL]

theorem isCmdLine_append_nl (name : String) (t : List Char) :
    isCmdLine name (t ++ ['\n']) ↔ isCmdLine name t := by
  unfold isCmdLine
  rw [pstrip_append_ws _ _ (by decide)]

/-- No adjacent header-plus-command pair for `name` (the relation whose
`List.Chain'` closure says the removal scan finds nothing to delete). -/
def noAliasPair (name : String) (x y : List Char) : Prop :=
  ¬ (isHdrLine name x ∧ isCmdLine name y)

theorem scanRemoveAlias_nil (name : String) : scanRemoveAlias name [] = [] := rfl

theorem scanRemoveAlias_singleton (name : String) (x : List Char) :
    scanRemoveAlias name [x] = [x] := rfl

theorem scanRemoveAlias_cons_cons (name : String) (x y : List Char)
    (rest : List (List Char)) :
    scanRemoveAlias name (x :: y :: rest)
      = if isHdrLine name x ∧ isCmdLine name y then scanRemoveAlias name rest
        else x :: scanRemoveAlias name (y :: rest) := rfl

theorem scanRemoveAlias_id (name : String) (L : List (List Char))
    (h : List.Chain' (noAliasPair name) L) : scanRemoveAlias name L = L := by
  induction L with
  | nil => rfl
  | cons x L ih =>
    cases L with
    | nil => rfl
    | cons y rest =>
      rw [scanRemoveAlias_cons_cons, if_neg (List.chain'_cons.mp h).1,
        ih (List.chain'_cons.mp h).2]

theorem scanRemoveAlias_append_block (name : String) (h a : List Char)
    (hh : isHdrLine name h) (ha : isCmdLine name a) :
    ∀ M : List (List Char), List.Chain' (noAliasPair name) (M ++ [h]) →
      scanRemoveAlias name (M ++ [h, a]) = M := by
  intro M
  induction M with
  | nil =>
    intro _
    show scanRemoveAlias name [h, a] = []
    rw [scanRemoveAlias_cons_cons, if_pos ⟨hh, ha⟩]
    rfl
  | cons m M ih =>
    intro hch
    cases M with
    | nil =>
      show scanRemoveAlias name (m :: h :: [a]) = [m]
      rw [scanRemoveAlias_cons_cons, if_neg ((List.chain'_cons.mp hch).1)]
      rw [show scanRemoveAlias name (h :: [a]) = [] from by
        rw [scanRemoveAlias_cons_cons, if_pos ⟨hh, ha⟩]; rfl]
    | cons m2 M2 =>
      show scanRemoveAlias name (m :: m2 :: (M2 ++ [h, a])) = m :: m2 :: M2
      rw [scanRemoveAlias_cons_cons, if_neg ((List.chain'_cons.mp hch).1)]
      rw [show m2 :: (M2 ++ [h, a]) = (m2 :: M2) ++ [h, a] from rfl]
      rw [ih ((List.chain'_cons.mp hch).2)]

theorem splitLines_nl_cons (X : List Char) :
    splitLines ('\n' :: X) = ['\n'] :: splitLines X := by
  simp [splitLines, splitLinesAux]

theorem getLastD_concat_eq {α : Type} (P : List α) (t : α) (d : α) :
    (P ++ [t]).getLastD d = t := by
  induction P with
  | nil => rfl
  | cons x P ih =>
    cases P with
    | nil => rfl
    | cons y Q => exact ih

theorem update_alias_file_add_eq (name path : String) (c : List Char)
    (hscan : scanRemoveAlias name (splitLines c) = splitLines c) :
    update_alias_file name path false c
      = c ++ (if ¬ (splitLines c).isEmpty
                 ∧ pstrip ((splitLines c).getLastD []) ≠ []
              then ['\n'] else [])
        ++ (aliasHeader name ++ aliasCmdLine name path) := by
  simp only [update_alias_file]
  rw [if_neg Bool.false_ne_true, hscan]
  split <;>
    simp [List.flatten_append, List.flatten_cons, splitLines_flatten,
      List.append_assoc]

theorem update_alias_file_remove_eq (name path : String) (c : List Char) :
    update_alias_file name path true c
      = (scanRemoveAlias name (splitLines c)).flatten := by
  simp [update_alias_file]

theorem splitLines_block (name path : String)
    (hname : '\n' ∉ name.data) (hpath : '\n' ∉ path.data) :
    splitLines (aliasHeader name ++ aliasCmdLine name path)
      = [aliasHeader name, aliasCmdLine name path] := by
  have hnlh : '\n' ∉ ("# Alias for " ++ name).data := by
    rw [String.data_append]
    intro hm
    rcases List.mem_append.mp hm with h1 | h2
    · exact absurd h1 (by decide)
    · exact hname h2
  have hnlc : '\n' ∉ ("alias " ++ name ++ "='" ++ path ++ "'").data := by
    simp only [String.data_append]
    intro hm
    simp only [List.mem_append] at hm
    rcases hm with ((((h | h) | h) | h) | h)
    · exact absurd h (by decide)
    · exact hname h
    · exact absurd h (by decide)
    · exact hpath h
    · exact absurd h (by decide)
  rw [aliasHeader_eq, List.append_assoc,
    show ['\n'] ++ aliasCmdLine name path = '\n' :: aliasCmdLine name path from rfl,
    splitLines_line _ _ hnlh, ← aliasHeader_eq, aliasCmdLine_eq,
    show ("alias " ++ name ++ "='" ++ path ++ "'").data ++ ['\n']
      = ("alias " ++ name ++ "='" ++ path ++ "'").data ++ '\n' :: [] from rfl,
    splitLines_line _ _ hnlc, ← aliasCmdLine_eq]
  rfl

/-- Round trip of the alias ledger: adding then removing an alias restores
the file content up to trailing newlines, provided no alias block for the
name was already present and the final unterminated line of the file, if
any, is not whitespace-only. -/
theorem update_alias_roundtrip (name path : String) (c : List Char)
    (hname : '\n' ∉ name.data) (hpath : '\n' ∉ path.data)
    (hch : List.Chain' (noAliasPair name) (splitLines c))
    (htail : trailer c = [] ∨ pstrip (trailer c) ≠ []) :
    rstripNL (update_alias_file name path true
      (update_alias_file name path false c)) = rstripNL c := by
  have hscan := scanRemoveAlias_id name _ hch
  have hh := isHdrLine_aliasHeader name
  have ha := isCmdLine_aliasCmdLine name path
  have hblock := splitLines_block name path hname hpath
  rw [update_alias_file_add_eq name path c hscan]
  by_cases htr : trailer c = []
  · have hhp : headPart c = c := by
      have h0 := headPart_append_trailer c
      rw [htr] at h0
      simpa using h0
    rcases headPart_form c with h0 | ⟨q, hq⟩
    · have hc0 : c = [] := by rw [← hhp, h0]
      subst hc0
      rw [if_neg (fun h => h.1 rfl)]
      rw [update_alias_file_remove_eq]
      simp only [List.nil_append]
      rw [hblock]
      rw [show scanRemoveAlias name [aliasHeader name, aliasCmdLine name path]
          = [] from scanRemoveAlias_append_block name _ _ hh ha []
            (List.chain'_singleton (aliasHeader name))]
      rfl
    · have hcq : c = q ++ ['\n'] := by rw [← hhp, hq]
      by_cases hcond : ¬ (splitLines c).isEmpty
          ∧ pstrip ((splitLines c).getLastD []) ≠ []
      · rw [if_pos hcond, update_alias_file_remove_eq]
        have hsp : splitLines (c ++ ['\n']
              ++ (aliasHeader name ++ aliasCmdLine name path))
            = (splitLines c ++ [['\n']])
              ++ [aliasHeader name, aliasCmdLine name path] := by
          rw [List.append_assoc c]
          rw [hcq, splitLines_term_append]
          rw [show ['\n'] ++ (aliasHeader name ++ aliasCmdLine name path)
              = '\n' :: (aliasHeader name ++ aliasCmdLine name path) from rfl]
          rw [splitLines_nl_cons, hblock, ← hcq]
          simp
        rw [hsp]
        rw [scanRemoveAlias_append_block name _ _ hh ha _ ?hch1]
        · rw [List.flatten_append, splitLines_flatten]
          simp only [List.flatten_cons, List.flatten_nil, List.append_nil]
          rw [rstripNL_append_nl]
        case hch1 =>
          rw [List.append_assoc]
          refine List.chain'_append.mpr ⟨hch, ?_, ?_⟩
          · refine List.chain'_pair.mpr ?_
            intro hand
            exact not_isHdrLine_nl name hand.1
          · intro x hx y hy
            have hy' : ['\n'] = y := by simpa using hy
            rw [← hy']
            intro hand
            exact not_isCmdLine_nl name hand.2
      · rw [if_neg hcond, update_alias_file_remove_eq]
        rw [List.append_nil]
        have hsp : splitLines (c ++ (aliasHeader name ++ aliasCmdLine name path))
            = splitLines c ++ [aliasHeader name, aliasCmdLine name path] := by
          rw [hcq, splitLines_term_append, hblock, ← hcq]
        rw [hsp]
        rw [scanRemoveAlias_append_block name _ _ hh ha _ ?hch2]
        · rw [splitLines_flatten]
        case hch2 =>
          refine List.chain'_append.mpr ⟨hch, List.chain'_singleton _, ?_⟩
          intro x hx y hy
          have hy' : aliasHeader name = y := by simpa using hy
          rw [← hy']
          intro hand
          exact not_isCmdLine_aliasHeader name name hand.2
  · have hps : pstrip (trailer c) ≠ [] := htail.resolve_left htr
    have htnl : '\n' ∉ trailer c := trailer_no_nl c
    have hPt : splitLines c = splitLines (headPart c) ++ [trailer c] := by
      rcases headPart_form c with h0 | ⟨q, hq⟩
      · have hct : c = trailer c := by
          have h1 := headPart_append_trailer c
          rw [h0] at h1
          simpa using h1.symm
        rw [h0, show splitLines ([] : List Char) = [] from rfl, List.nil_append]
        conv_lhs => rw [hct]
        exact splitLines_no_nl _ htnl htr
      · have h1 := headPart_append_trailer c
        rw [hq] at h1
        conv_lhs => rw [← h1, splitLines_term_append,
          splitLines_no_nl _ htnl htr]
        rw [hq]
    have hcond : ¬ (splitLines c).isEmpty
        ∧ pstrip ((splitLines c).getLastD []) ≠ [] := by
      constructor
      · rw [hPt]
        simp
      · rw [hPt, getLastD_concat_eq]
        exact hps
    rw [if_pos hcond, update_alias_file_remove_eq]
    have hsp : splitLines (c ++ ['\n']
          ++ (aliasHeader name ++ aliasCmdLine name path))
        = (splitLines (headPart c) ++ [trailer c ++ ['\n']])
          ++ [aliasHeader name, aliasCmdLine name path] := by
      have hshape : c ++ ['\n'] ++ (aliasHeader name ++ aliasCmdLine name path)
          = headPart c ++ (trailer c
              ++ '\n' :: (aliasHeader name ++ aliasCmdLine name path)) := by
        conv_lhs => rw [← headPart_append_trailer c]
        simp [List.append_assoc]
      rw [hshape]
      rcases headPart_form c with h0 | ⟨q, hq⟩
      · rw [h0, List.nil_append, splitLines_line _ _ htnl, hblock]
        rfl
      · rw [hq, splitLines_term_append, splitLines_line _ _ htnl, hblock, ← hq]
        simp
    rw [hsp]
    rw [scanRemoveAlias_append_block name _ _ hh ha _ ?hch3]
    · rw [List.flatten_append, splitLines_flatten]
      simp only [List.flatten_cons, List.flatten_nil, List.append_nil]
      rw [← List.append_assoc, headPart_append_trailer, rstripNL_append_nl]
    case hch3 =>
      rw [List.append_assoc]
      have hch' := hPt ▸ hch
      obtain ⟨hchP, -, hrel⟩ := List.chain'_append.mp hch'
      refine List.chain'_append.mpr ⟨hchP, ?_, ?_⟩
      · refine List.chain'_pair.mpr ?_
        intro hand
        exact not_isCmdLine_aliasHeader name name hand.2
      · intro x hx y hy
        have hy' : trailer c ++ ['\n'] = y := by simpa using hy
        rw [← hy']
        intro hand
        have hx2 : noAliasPair name x (trailer c) :=
          hrel x hx (trailer c) (by simp)
        exact hx2 ⟨hand.1, (isCmdLine_append_nl _ _).mp hand.2⟩

/-! Lemmas about the integration pipeline. -/

theorem setFile_any (d : List (String × List (String × String))) (n : String)
    (v : List (String × String)) :
    (setFile d n v).any (fun p => p.1 = n) = true := by
  unfold setFile
  split
  · rename_i hany
    simp only [List.any_eq_true, decide_eq_true_eq] at hany ⊢
    obtain ⟨p, hp, hpn⟩ := hany
    exact ⟨(n, v), List.mem_map.mpr ⟨p, hp, by rw [if_pos hpn]⟩, rfl⟩
  · simp

theorem env_exec_eta (e : Env) (h : e.executable = true) :
    { e with executable := true } = e := by
  cases e
  simp_all

theorem integrate_success_state (env : Env)
    (h : (integrate_appbox env).2.menuWritten = true) :
    wait_until_file_ready env.obsTrace = true ∧
    (is_valid_appbox env.vEnv env.stem).1 = true ∧
    (integrate_appbox env).1.obsTrace = env.obsTrace ∧
    (integrate_appbox env).1.vEnv = env.vEnv ∧
    (integrate_appbox env).1.stem = env.stem ∧
    (integrate_appbox env).1.executable = true ∧
    (integrate_appbox env).1.appsDir.any (fun p => p.1
        = sanitize_name (get_base_app_name env.stem) ++ ".desktop") = true := by
  simp only [integrate_appbox] at h ⊢
  by_cases h1 : wait_until_file_ready env.obsTrace = false
  · rw [if_pos h1] at h
    simp [noEffects] at h
  rw [if_neg h1] at h ⊢
  have hr : wait_until_file_ready env.obsTrace = true := by
    cases hb : wait_until_file_ready env.obsTrace
    · exact absurd hb h1
    · rfl
  by_cases h2 : (is_valid_appbox env.vEnv env.stem).1 = false
  · rw [if_pos h2] at h
    simp [noEffects] at h
  rw [if_neg h2] at h ⊢
  have hv : (is_valid_appbox env.vEnv env.stem).1 = true := by
    cases hb : (is_valid_appbox env.vEnv env.stem).1
    · exact absurd hb h2
    · rfl
  by_cases h3 : ({ env with executable := true } : Env).appsDir.any
      (fun p => p.1 = sanitize_name (get_base_app_name env.stem) ++ ".desktop")
  · rw [if_pos h3] at h
    simp [noEffects] at h
  rw [if_neg h3] at h ⊢
  by_cases h4 : extractLoop env.extractOutcome 0 5 = false
  · rw [if_pos h4] at h
    simp [noEffects] at h
  rw [if_neg h4] at h ⊢
  cases hfd : env.foundDesktop with
  | none =>
    rw [hfd] at h
    simp [noEffects] at h
  | some d =>
    rw [hfd] at h
    cases d with
    | parseError => simp [noEffects] at h
    | noSection => simp [noEffects] at h
    | ok entries =>
      refine ⟨hr, hv, ?_⟩
      clear h h1 h2 h3 h4
      dsimp only
      cases his : env.foundIconSuffix <;> dsimp only <;> split <;>
        simp [setFile_any]

/-! The claims. -/

/-- C3: the trust validator checks, in order and short-circuiting on the
first failure: file existence, the ELF magic in the first four bytes, at
least three hyphen-separated filename tokens, a prefix-matching manifest
with an alias-mapped architecture, and a build-completion marker named
after the stem; every failure returns `false` with a specific reason
string, and absence of the trust-store directory (checked between the ELF
and token checks) is itself a validation failure, not a pass-through. -/
theorem C3_trust_validator_cascade :
    ∀ (e : ValidEnv) (stem : String),
      (e.fileExists = false →
        is_valid_appbox e stem = (false, "File does not exist")) ∧
      (e.fileExists = true → is_elf_binary e.fileBytes = false →
        is_valid_appbox e stem = (false, "Not a valid ELF binary")) ∧
      (e.fileExists = true → is_elf_binary e.fileBytes = true →
        e.cliDirExists = false →
        is_valid_appbox e stem
          = (false, "No nx-apphub-cli directory found - AppBox definitions missing")) ∧
      (e.fileExists = true → is_elf_binary e.fileBytes = true →
        e.cliDirExists = true → (splitSep '-' stem.data).length < 3 →
        is_valid_appbox e stem = (false, "Invalid AppBox filename format")) ∧
      (e.fileExists = true → is_elf_binary e.fileBytes = true →
        e.cliDirExists = true → ¬ (splitSep '-' stem.data).length < 3 →
        e.yamls.any (yamlMatches stem
          (String.mk ((splitSep '-' stem.data).getLastD []))) = false →
        is_valid_appbox e stem
          = (false, "No corresponding YAML definition found - not a valid AppBox")) ∧
      (e.fileExists = true → is_elf_binary e.fileBytes = true →
        e.cliDirExists = true → ¬ (splitSep '-' stem.data).length < 3 →
        e.yamls.any (yamlMatches stem
          (String.mk ((splitSep '-' stem.data).getLastD []))) = true →
        e.markers.contains stem = false →
        is_valid_appbox e stem
          = (false, "No build marker found - AppBox not built by nx-apphub-cli")) ∧
      (e.fileExists = true → is_elf_binary e.fileBytes = true →
        e.cliDirExists = true → ¬ (splitSep '-' stem.data).length < 3 →
        e.yamls.any (yamlMatches stem
          (String.mk ((splitSep '-' stem.data).getLastD []))) = true →
        e.markers.contains stem = true →
        is_valid_appbox e stem = (true, "Valid AppBox")) := by
  intro e stem
  refine ⟨?_, ?_, ?_, ?_, ?_, ?_, ?_⟩ <;>
    intros <;> simp_all [is_valid_appbox]

/-- A trust-validator environment that passes every check for the stem
`foo-1.0-x86_64`. -/
def vEnvW : ValidEnv :=
  ⟨true, [127, 69, 76, 70], true, [⟨true, "foo", some "x86_64"⟩],
   ["foo-1.0-x86_64"]⟩

/-- Witness for C3: a fully valid artifact is accepted and the same
artifact with the trust store absent is rejected with the fail-closed
reason. -/
theorem C3_trust_validator_cascade_witness :
    is_valid_appbox vEnvW "foo-1.0-x86_64" = (true, "Valid AppBox") ∧
    is_valid_appbox { vEnvW with cliDirExists := false } "foo-1.0-x86_64"
      = (false, "No nx-apphub-cli directory found - AppBox definitions missing") :=
  ⟨(C3_trust_validator_cascade vEnvW "foo-1.0-x86_64").2.2.2.2.2.2
      (by decide) (by decide) (by decide) (by decide) (by decide) (by decide),
   (C3_trust_validator_cascade { vEnvW with cliDirExists := false }
      "foo-1.0-x86_64").2.2.1 (by decide) (by decide) (by decide)⟩

/-- C7: base-name derivation strips the trailing architecture segment,
takes the first hyphen token, joins the first two tokens when the second
has no digit, and maps the two documented examples as specified. -/
theorem C7_base_name_derivation :
    (∀ (s : String) (a b c : List Char) (rest : List (List Char)),
      splitSep '-' s.data = a :: b :: c :: rest →
      (splitSep '-' s.data).getLastD [] ≠ [] →
      ((hasDigit b = true → get_base_app_name s = String.mk a) ∧
       (hasDigit b = false →
         get_base_app_name s = String.mk (a ++ '-' :: b)))) ∧
    get_base_app_name "firefox-120.0-x86_64" = "firefox" ∧
    get_base_app_name "my-app-2.1.0-aarch64" = "my-app" := by
  refine ⟨?_, by decide, by decide⟩
  intro s a b c rest hp hlast
  constructor
  · intro hd
    rw [get_base_app_name_eq s a b c rest hp hlast, if_pos hd]
  · intro hd
    rw [get_base_app_name_eq s a b c rest hp hlast, if_neg (by simp [hd])]

/-- Witness for C7: the general token characterization evaluated on the
stem `my-app-2.1.0-aarch64` (second token without digit, so joined). -/
theorem C7_base_name_derivation_witness :
    get_base_app_name "my-app-2.1.0-aarch64"
      = String.mk ("my".data ++ '-' :: "app".data) :=
  (C7_base_name_derivation.1 "my-app-2.1.0-aarch64" "my".data "app".data
      "2.1.0".data ["aarch64".data] (by decide) (by decide)).2 (by decide)

/-- C6 counterexample: the round trip is not byte-for-byte up to trailing
newlines on a file whose content is a single space — the add step appends
the header directly after the unterminated whitespace line, and the remove
step then deletes the whitespace together with the block. -/
theorem C6_alias_roundtrip_counterexample :
    ¬ (rstripNL (update_alias_file "x" "p" true
        (update_alias_file "x" "p" false (" ").data))
      = rstripNL (" ").data) := by decide

/-- C6 (amended): the removal scan deletes a header line only when the
matching alias line is adjacent (a line list without such an adjacent pair
is left unchanged), and add-then-remove restores the alias file content up
to trailing newlines whenever no alias block for the name is already
present and the file does not end in a whitespace-only line lacking a
newline terminator. -/
theorem C6_alias_roundtrip_amended :
    ∀ (name path : String) (c : List Char),
      '\n' ∉ name.data → '\n' ∉ path.data →
      List.Chain' (noAliasPair name) (splitLines c) →
      (trailer c = [] ∨ pstrip (trailer c) ≠ []) →
      scanRemoveAlias name (splitLines c) = splitLines c ∧
      rstripNL (update_alias_file name path true
        (update_alias_file name path false c)) = rstripNL c :=
  fun name path c h1 h2 h3 h4 =>
    ⟨scanRemoveAlias_id name _ h3, update_alias_roundtrip name path c h1 h2 h3 h4⟩

/-- Witness for C6: the amended round trip evaluated on the empty alias
file. -/
theorem C6_alias_roundtrip_amended_witness :
    scanRemoveAlias "x" (splitLines []) = splitLines [] ∧
    rstripNL (update_alias_file "x" "p" true
      (update_alias_file "x" "p" false [])) = rstripNL [] :=
  C6_alias_roundtrip_amended "x" "p" [] (by decide) (by decide)
    (show List.Chain' (noAliasPair "x") [] from List.chain'_nil)
    (Or.inl (by decide))

/-- C2 (code bug): on a stale menu entry whose `Exec` points into the
watched directory at an artifact that is no longer present, the sweep
removes the menu entry and the alias block but leaves the referenced icon
in the managed icon directory untouched, although the claim (and the
function's own docstring) say stale icons are removed as well. -/
theorem C2_stale_sweep_keeps_icon :
    clean_stale_integrations "/w" []
      ⟨[⟨"foo.desktop", true, "/w/foo-1.0-x86_64.AppBox",
         "/home/user/.local/share/icons/nx-apphub/foo.png"⟩],
       ["/home/user/.local/share/icons/nx-apphub/foo.png"],
       ("# Alias for foo\nalias foo='/w/foo-1.0-x86_64.AppBox'\n").data⟩
    = ⟨[], ["/home/user/.local/share/icons/nx-apphub/foo.png"], []⟩ := by
  decide

/-- C10: `remove_integration` fires its removal notification exactly when
it removed at least one matching desktop entry (file name containing the
sanitized base name, `Exec` containing the artifact path), and for a
deletion event matching no installed entry it leaves the menu directory,
icon directory and alias file unchanged and fires nothing. -/
theorem C10_removal_frame :
    ∀ (pathStr stem : String) (st : DeskState),
      (remove_integration pathStr stem st).2
        = st.files.any (matchedEntry pathStr
            (sanitize_name (get_base_app_name stem))) ∧
      (st.files.any (matchedEntry pathStr
          (sanitize_name (get_base_app_name stem))) = false →
        remove_integration pathStr stem st = (st, false)) := by
  intro pathStr stem st
  constructor
  · rfl
  · intro h
    have hall : ∀ f ∈ st.files,
        matchedEntry pathStr (sanitize_name (get_base_app_name stem)) f
          = false := by
      intro f hf
      cases hb : matchedEntry pathStr (sanitize_name (get_base_app_name stem)) f
      · rfl
      · exact absurd (List.any_eq_true.mpr ⟨f, hf, hb⟩) (by simp [h])
    simp only [remove_integration, h]
    have hfiles : st.files.filter (fun f =>
        !(matchedEntry pathStr (sanitize_name (get_base_app_name stem)) f))
          = st.files := by
      rw [List.filter_eq_self]
      intro f hf
      simp [hall f hf]
    have hicons : st.iconFiles.filter (fun ic =>
        !(st.files.any (fun f =>
          matchedEntry pathStr (sanitize_name (get_base_app_name stem)) f
            && !(f.iconVal == "") && f.iconVal == ic && underIconsDir ic)))
          = st.iconFiles := by
      rw [List.filter_eq_self]
      intro ic _
      have hany : st.files.any (fun f =>
          matchedEntry pathStr (sanitize_name (get_base_app_name stem)) f
            && !(f.iconVal == "") && f.iconVal == ic && underIconsDir ic)
          = false := by
        cases hb : st.files.any (fun f =>
            matchedEntry pathStr (sanitize_name (get_base_app_name stem)) f
              && !(f.iconVal == "") && f.iconVal == ic && underIconsDir ic)
        · rfl
        · obtain ⟨f, hf, hfb⟩ := List.any_eq_true.mp hb
          rw [hall f hf] at hfb
          simp at hfb
      simp [hany]
    rw [hfiles, hicons]
    rfl

/-- Witness for C10: a deletion event with no installed entry leaves the
empty installed state unchanged. -/
theorem C10_removal_frame_witness :
    remove_integration "/w/bar-1.0-x86_64.AppBox" "bar-1.0-x86_64"
      ⟨[], [], []⟩ = (⟨[], [], []⟩, false) :=
  (C10_removal_frame "/w/bar-1.0-x86_64.AppBox" "bar-1.0-x86_64"
    ⟨[], [], []⟩).2 (by decide)

/-- C5: the per-artifact extraction workspace is removed on every exit
path of `integrate_appbox` after its creation (extraction failure, missing
desktop file, parse failure, missing section, success), and it is created
whenever extraction is attempted. -/
theorem C5_workspace_always_removed :
    ∀ env : Env,
      ((integrate_appbox env).2.workspaceCreated = true →
        (integrate_appbox env).2.workspaceRemoved = true) ∧
      ((integrate_appbox env).2.extractionAttempted = true →
        (integrate_appbox env).2.workspaceCreated = true) := by
  intro env
  simp only [integrate_appbox]
  repeat' split
  all_goals simp [noEffects]

/-- A world state in which integration of `foo-1.0-x86_64.AppBox` runs to
completion: stable readiness polls, a passing validator environment, no
prior menu entry, first-attempt extraction success, a parsed descriptor
and an icon. -/
def envW : Env where
  obsTrace := [FileObs.size 5 true, FileObs.size 5 true]
  vEnv := vEnvW
  stem := "foo-1.0-x86_64"
  pathStr := "/home/user/.local/bin/nx-apphub/foo-1.0-x86_64.AppBox"
  executable := false
  appsDir := []
  iconsDir := []
  aliasContent := []
  extractOutcome := fun _ => ExtractOutcome.success
  foundDesktop := some (DescriptorSrc.ok [("Name", "Foo")])
  foundIconSuffix := some ".png"

/-- The same world with the menu entry already installed. -/
def envGate : Env := { envW with appsDir := [("foo.desktop", [])] }

/-- A ready, valid, already-integrated run hits the gate and leaves the
installed state unchanged (only the artifact's execute bit may change). -/
theorem integrate_gate_run (e : Env)
    (h1 : wait_until_file_ready e.obsTrace = true)
    (h2 : (is_valid_appbox e.vEnv e.stem).1 = true)
    (h3 : e.appsDir.any (fun p => p.1
        = sanitize_name (get_base_app_name e.stem) ++ ".desktop") = true)
    (h4 : e.executable = true) :
    (integrate_appbox e).1 = e := by
  have h3' : (({ e with executable := true } : Env)).appsDir.any
      (fun p => p.1 = sanitize_name (get_base_app_name e.stem) ++ ".desktop")
        = true := h3
  simp only [integrate_appbox]
  rw [if_neg (by simp [h1]), if_neg (by simp [h2]), if_pos h3']
  exact env_exec_eta e h4

/-- C1: when a menu entry for the artifact's sanitized base name already
exists, `integrate_appbox` skips the rest of integration — no extraction,
no icon copy, no alias change, installed state untouched — and after a run
that wrote the menu entry a second run over the resulting state is the
identity, so duplicate events produce exactly one menu entry, one icon and
one alias block. -/
theorem C1_integrate_idempotent :
    ∀ env : Env,
      (wait_until_file_ready env.obsTrace = true →
       (is_valid_appbox env.vEnv env.stem).1 = true →
       env.appsDir.any (fun p => p.1
           = sanitize_name (get_base_app_name env.stem) ++ ".desktop") = true →
        (integrate_appbox env).2.gateSkipped = true ∧
        (integrate_appbox env).2.extractionAttempted = false ∧
        (integrate_appbox env).2.iconCopied = false ∧
        (integrate_appbox env).2.aliasUpdated = false ∧
        (integrate_appbox env).2.menuWritten = false ∧
        (integrate_appbox env).1.appsDir = env.appsDir ∧
        (integrate_appbox env).1.iconsDir = env.iconsDir ∧
        (integrate_appbox env).1.aliasContent = env.aliasContent) ∧
      ((integrate_appbox env).2.menuWritten = true →
        (integrate_appbox ((integrate_appbox env).1)).1
          = (integrate_appbox env).1) := by
  intro env
  constructor
  · intro hr hv hany
    have hany' : (({ env with executable := true } : Env)).appsDir.any
        (fun p => p.1
          = sanitize_name (get_base_app_name env.stem) ++ ".desktop")
          = true := hany
    simp only [integrate_appbox]
    rw [if_neg (by simp [hr]), if_neg (by simp [hv]), if_pos hany']
    simp [noEffects]
  · intro hm
    obtain ⟨hr, hv, hot, hvE, hst, hex, happ⟩ := integrate_success_state env hm
    refine integrate_gate_run _ ?_ ?_ ?_ hex
    · rw [hot]
      exact hr
    · rw [hvE, hst]
      exact hv
    · rw [hst]
      exact happ

/-- Witness for C1: the gate skip on an already-integrated world and the
identity of a second run after a successful one. -/
theorem C1_integrate_idempotent_witness :
    (integrate_appbox envGate).2.gateSkipped = true ∧
    (integrate_appbox envGate).1.appsDir = envGate.appsDir ∧
    (integrate_appbox ((integrate_appbox envW).1)).1
      = (integrate_appbox envW).1 :=
  ⟨((C1_integrate_idempotent envGate).1 (by decide) (by decide) (by decide)).1,
   ((C1_integrate_idempotent envGate).1 (by decide) (by decide)
      (by decide)).2.2.2.2.2.1,
   (C1_integrate_idempotent envW).2 (by decide)⟩

/-- C9: an artifact that is ready and passes validation but lacks execute
permission gets its mode set before the already-integrated check, so the
artifact is mutated even when integration is then skipped by the gate. -/
theorem C9_chmod_before_gate :
    ∀ env : Env, wait_until_file_ready env.obsTrace = true →
      (is_valid_appbox env.vEnv env.stem).1 = true →
      env.executable = false →
      (integrate_appbox env).2.chmodApplied = true ∧
      (integrate_appbox env).1.executable = true ∧
      (env.appsDir.any (fun p => p.1
          = sanitize_name (get_base_app_name env.stem) ++ ".desktop") = true →
        (integrate_appbox env).2.gateSkipped = true ∧
        (integrate_appbox env).2.extractionAttempted = false) := by
  intro env hr hv hx
  refine ⟨?_, ?_, fun hany => ?_⟩
  · simp only [integrate_appbox]
    rw [if_neg (by simp [hr]), if_neg (by simp [hv])]
    repeat' split
    all_goals simp [noEffects, hx]
  · simp only [integrate_appbox]
    rw [if_neg (by simp [hr]), if_neg (by simp [hv])]
    repeat' split
    all_goals simp [noEffects, hx]
  · have hany' : (({ env with executable := true } : Env)).appsDir.any
        (fun p => p.1
          = sanitize_name (get_base_app_name env.stem) ++ ".desktop")
          = true := hany
    simp only [integrate_appbox]
    rw [if_neg (by simp [hr]), if_neg (by simp [hv]), if_pos hany']
    simp [noEffects]

/-- Witness for C9: the gate world with a non-executable artifact gets the
mode change even though integration is skipped. -/
theorem C9_chmod_before_gate_witness :
    (integrate_appbox envGate).2.chmodApplied = true ∧
    (integrate_appbox envGate).2.gateSkipped = true :=
  ⟨(C9_chmod_before_gate envGate (by decide) (by decide) (by decide)).1,
   ((C9_chmod_before_gate envGate (by decide) (by decide)
      (by decide)).2.2 (by decide)).1⟩

/-- Witness for C5: the successful run creates and removes the workspace. -/
theorem C5_workspace_always_removed_witness :
    (integrate_appbox envW).2.workspaceRemoved = true :=
  (C5_workspace_always_removed envW).1 (by decide)

/-- C4: extraction retries only on the busy condition, up to 5 attempts —
busy on attempts 1-4 followed by success on attempt 5 yields successful
integration with 5 attempts; any other execution failure aborts after a
single attempt with workspace cleanup and no menu entry; five busy
failures give up after 5 attempts with workspace cleanup and no menu
entry. -/
theorem C4_extraction_retry :
    ∀ (env : Env) (es : List (String × String)),
      wait_until_file_ready env.obsTrace = true →
      (is_valid_appbox env.vEnv env.stem).1 = true →
      env.appsDir.any (fun p => p.1
          = sanitize_name (get_base_app_name env.stem) ++ ".desktop") = false →
      (((∀ j, j < 4 → env.extractOutcome j = ExtractOutcome.busy) →
        env.extractOutcome 4 = ExtractOutcome.success →
        env.foundDesktop = some (DescriptorSrc.ok es) →
          (integrate_appbox env).2.extractionSucceeded = true ∧
          (integrate_appbox env).2.extractionAttempts = 5 ∧
          (integrate_appbox env).2.menuWritten = true) ∧
      ((env.extractOutcome 0 = ExtractOutcome.osError ∨
        env.extractOutcome 0 = ExtractOutcome.calledProcessError) →
          (integrate_appbox env).2.extractionAttempts = 1 ∧
          (integrate_appbox env).2.extractionSucceeded = false ∧
          (integrate_appbox env).2.workspaceRemoved = true ∧
          (integrate_appbox env).2.menuWritten = false) ∧
      ((∀ j, j < 5 → env.extractOutcome j = ExtractOutcome.busy) →
          (integrate_appbox env).2.extractionAttempts = 5 ∧
          (integrate_appbox env).2.extractionSucceeded = false ∧
          (integrate_appbox env).2.workspaceRemoved = true ∧
          (integrate_appbox env).2.menuWritten = false)) := by
  intro env es hr hv hg
  refine ⟨?_, ?_, ?_⟩
  · intro hb hs hfd
    have h0 := hb 0 (by omega)
    have h1 := hb 1 (by omega)
    have h2 := hb 2 (by omega)
    have h3 := hb 3 (by omega)
    have hl : extractLoop env.extractOutcome 0 5 = true := by
      simp [extractLoop, h0, h1, h2, h3, hs]
    have hc : extractAttemptCount env.extractOutcome 0 5 = 5 := by
      simp [extractAttemptCount, h0, h1, h2, h3, hs]
    simp only [integrate_appbox]
    rw [if_neg (by simp [hr]), if_neg (by simp [hv]), if_neg (by simp [hg]),
      if_neg (by simp [hl]), hfd]
    dsimp only
    cases his : env.foundIconSuffix <;> simp [noEffects, hc]
  · intro ho
    have hl : extractLoop env.extractOutcome 0 5 = false := by
      rcases ho with h | h <;> simp [extractLoop, h]
    have hc : extractAttemptCount env.extractOutcome 0 5 = 1 := by
      rcases ho with h | h <;> simp [extractAttemptCount, h]
    simp only [integrate_appbox]
    rw [if_neg (by simp [hr]), if_neg (by simp [hv]), if_neg (by simp [hg]),
      if_pos hl]
    simp [noEffects, hc]
  · intro hb
    have h0 := hb 0 (by omega)
    have h1 := hb 1 (by omega)
    have h2 := hb 2 (by omega)
    have h3 := hb 3 (by omega)
    have h4 := hb 4 (by omega)
    have hl : extractLoop env.extractOutcome 0 5 = false := by
      simp [extractLoop, h0, h1, h2, h3, h4]
    have hc : extractAttemptCount env.extractOutcome 0 5 = 5 := by
      simp [extractAttemptCount, h0, h1, h2, h3, h4]
    simp only [integrate_appbox]
    rw [if_neg (by simp [hr]), if_neg (by simp [hv]), if_neg (by simp [hg]),
      if_pos hl]
    simp [noEffects, hc]

/-- A run whose extraction is busy on the first four attempts and succeeds
on the fifth. -/
def envBusy : Env :=
  { envW with extractOutcome := fun j =>
      if j < 4 then ExtractOutcome.busy else ExtractOutcome.success }

/-- A run whose first extraction attempt fails with a non-busy `OSError`. -/
def envErr : Env :=
  { envW with extractOutcome := fun _ => ExtractOutcome.osError }

/-- A run whose extraction is busy on every attempt. -/
def envAllBusy : Env :=
  { envW with extractOutcome := fun _ => ExtractOutcome.busy }

/-- Witness for C4: the three retry scenarios evaluated concretely. -/
theorem C4_extraction_retry_witness :
    ((integrate_appbox envBusy).2.extractionSucceeded = true ∧
     (integrate_appbox envBusy).2.extractionAttempts = 5 ∧
     (integrate_appbox envBusy).2.menuWritten = true) ∧
    (integrate_appbox envErr).2.extractionAttempts = 1 ∧
    (integrate_appbox envAllBusy).2.workspaceRemoved = true :=
  ⟨(C4_extraction_retry envBusy [("Name", "Foo")] (by decide) (by decide)
      (by decide)).1 (fun j hj => if_pos hj) (by decide) (by decide),
   ((C4_extraction_retry envErr [] (by decide) (by decide) (by decide)).2.1
      (Or.inl (by decide))).1,
   ((C4_extraction_retry envAllBusy [] (by decide) (by decide)
      (by decide)).2.2 (fun j hj => rfl)).2.2.1⟩

/-- C8: the readiness gate returns true exactly when two consecutive
observed sizes agree with the file readable at the second (error polls are
transparent to the scan and to the `last_size` chain), it returns false
when the poll budget is exhausted without that happening, and a trace that
never stabilizes leads `integrate_appbox` to return immediately with no
menu entry and no state change. -/
theorem C8_readiness_gate :
    (∀ tr : List FileObs,
      wait_until_file_ready tr = true ↔ stableObserved (observedSizes tr)) ∧
    (∀ (tr : List FileObs) (last : Option Nat),
      waitReadyAux (FileObs.err :: tr) last = waitReadyAux tr last) ∧
    (∀ env : Env, ¬ stableObserved (observedSizes env.obsTrace) →
      (integrate_appbox env).2.menuWritten = false ∧
      (integrate_appbox env).1 = env) := by
  refine ⟨?_, ?_, ?_⟩
  · intro tr
    rw [wait_until_file_ready, waitReadyAux_iff]
    constructor
    · rintro (h | ⟨n, post, hn, _⟩)
      · exact h
      · cases hn
    · intro h
      exact Or.inl h
  · intro tr last
    rfl
  · intro env hn
    have hw : wait_until_file_ready env.obsTrace = false := by
      cases hb : wait_until_file_ready env.obsTrace
      · rfl
      · exfalso
        rcases (waitReadyAux_iff env.obsTrace none).mp hb with h | ⟨n, post, hn2, _⟩
        · exact hn h
        · cases hn2
    constructor
    · simp [integrate_appbox, hw, noEffects]
    · simp [integrate_appbox, hw]

/-- A run whose observed file size grows at every poll. -/
def envUnstable : Env :=
  { envW with obsTrace :=
      [FileObs.size 1 true, FileObs.size 2 true, FileObs.size 3 true] }

/-- Witness for C8: the never-stable trace leads to no menu entry and no
state change. -/
theorem C8_readiness_gate_witness :
    (integrate_appbox envUnstable).2.menuWritten = false ∧
    (integrate_appbox envUnstable).1 = envUnstable :=
  C8_readiness_gate.2.2 envUnstable
    (fun hs => absurd ((stablePairs_iff _).mpr hs) (by decide))

end NxApphubd
